import Mathlib

/-!
Shallow embedding of the Adobe Analytics product-string validator
(`src/components/ProductValidator.tsx`): the attribute normalizer
(`processEventAttributes` / `normalizeAttributes`), the per-segment parser
(`parseProduct`) and the whole-string validator (`validateProductString`),
together with the JavaScript string and number primitives they rely on
(single-character `split`, `trim`, first-occurrence `replace`, `parseFloat`,
`Number` coercion, truthiness).  Numbers are modelled exactly over `ℚ`
extended with NaN and the infinities, so every definition is executable and
every concrete run can be checked by `decide`.
-/

namespace AAValidator

/-! ## JavaScript character classes -/

/-- ASCII digit `0`-`9`, i.e. the JS regex class `\d`. -/
def isDigitChar (c : Char) : Bool := decide (48 ≤ c.toNat ∧ c.toNat ≤ 57)

/-- The JS whitespace class used by `String.prototype.trim`, `parseFloat`
and `Number`: tab through carriage return, space, NBSP, the Unicode space
separators, line/paragraph separators and the BOM. -/
def isJsWs (c : Char) : Bool :=
  decide (c.toNat = 9 ∨ c.toNat = 10 ∨ c.toNat = 11 ∨ c.toNat = 12 ∨ c.toNat = 13 ∨
    c.toNat = 32 ∨ c.toNat = 160 ∨ c.toNat = 5760 ∨
    (8192 ≤ c.toNat ∧ c.toNat ≤ 8202) ∨ c.toNat = 8232 ∨ c.toNat = 8233 ∨
    c.toNat = 8239 ∨ c.toNat = 8287 ∨ c.toNat = 12288 ∨ c.toNat = 65279)

/-- Hexadecimal digit, for `Number("0x…")`. -/
def isHexDigitChar (c : Char) : Bool :=
  decide ((48 ≤ c.toNat ∧ c.toNat ≤ 57) ∨ (97 ≤ c.toNat ∧ c.toNat ≤ 102) ∨
    (65 ≤ c.toNat ∧ c.toNat ≤ 70))

/-- Octal digit, for `Number("0o…")`. -/
def isOctDigitChar (c : Char) : Bool := decide (48 ≤ c.toNat ∧ c.toNat ≤ 55)

/-- Binary digit, for `Number("0b…")`. -/
def isBinDigitChar (c : Char) : Bool := decide (c.toNat = 48 ∨ c.toNat = 49)

/-- Value of a digit in any of the radices above. -/
def radixDigitVal (c : Char) : ℕ :=
  if 97 ≤ c.toNat then c.toNat - 87 else if 65 ≤ c.toNat then c.toNat - 55
  else c.toNat - 48

/-- Decimal value of a digit string (folds left, as positional notation does). -/
def natOfDigits (ds : List Char) : ℕ := ds.foldl (fun n c => 10 * n + (c.toNat - 48)) 0

/-- Value of a digit string in radix `b`. -/
def natOfRadix (b : ℕ) (ds : List Char) : ℕ :=
  ds.foldl (fun n c => b * n + radixDigitVal c) 0

/-! ## JavaScript string primitives -/

/-- `s.split(sep)` for a single-character separator, on the underlying
character list: splits at every occurrence, keeps empty pieces, and maps the
empty string to `[[]]` (JS `"".split(",")` is `[""]`). -/
def splitCharList (sep : Char) : List Char → List (List Char)
  | [] => [[]]
  | c :: cs =>
    let r := splitCharList sep cs
    if c = sep then [] :: r
    else
      match r with
      | [] => [[c]]
      | h :: t => (c :: h) :: t

/-- `s.split(sep)` for a single-character separator. -/
def jsSplit (sep : Char) (s : String) : List String :=
  (splitCharList sep s.data).map fun l => String.mk l

/-- `s.includes(c)` for a single character. -/
def jsIncludes (c : Char) (s : String) : Bool := s.data.any fun x => decide (x = c)

/-- `s.replace(a, b)` with single-character pattern: replaces only the first
occurrence. -/
def replaceFirstList (a b : Char) : List Char → List Char
  | [] => []
  | c :: cs => if c = a then b :: cs else c :: replaceFirstList a b cs

/-- `s.replace(a, b)` with single-character pattern. -/
def jsReplaceFirst (a b : Char) (s : String) : String :=
  String.mk (replaceFirstList a b s.data)

/-- `s.trim()` on the character list: drop JS whitespace from both ends. -/
def trimList (cs : List Char) : List Char :=
  ((cs.dropWhile isJsWs).reverse.dropWhile isJsWs).reverse

/-- `s.trim()`. -/
def jsTrim (s : String) : String := String.mk (trimList s.data)

/-! ## JavaScript numbers: `parseFloat` and `Number` over `ℚ` ∪ {NaN, ±∞} -/

/-- A JS number as the validator observes it: NaN, the two infinities, or an
exact rational (every finite value the validator ever produces is a decimal
numeral, represented exactly). -/
inductive JsFloat where
  | nan : JsFloat
  | inf : JsFloat
  | neginf : JsFloat
  | num : ℚ → JsFloat
deriving DecidableEq, Repr

/-- `isNaN(v)`. -/
def JsFloat.isNaN : JsFloat → Bool
  | .nan => true
  | _ => false

/-- `v >= 0` with JS comparison semantics (false for NaN). -/
def JsFloat.geZero : JsFloat → Bool
  | .nan => false
  | .inf => true
  | .neginf => false
  | .num q => decide (0 ≤ q)

/-- JS truthiness of a number: everything except NaN and 0 is truthy. -/
def JsFloat.truthy : JsFloat → Bool
  | .nan => false
  | .inf => true
  | .neginf => true
  | .num q => decide (q ≠ 0)

/-- Optional leading sign: returns (isNegative, rest). -/
def splitSign (cs : List Char) : Bool × List Char :=
  match cs with
  | [] => (false, [])
  | c :: t => if c = '-' then (true, t) else if c = '+' then (false, t) else (false, c :: t)

/-- Character-list prefix test (Boolean, by structural recursion). -/
def isPrefixList : List Char → List Char → Bool
  | [], _ => true
  | _ :: _, [] => false
  | a :: as, b :: bs => decide (a = b) && isPrefixList as bs

/-- The characters of the literal `Infinity`. -/
def infinityChars : List Char := ['I', 'n', 'f', 'i', 'n', 'i', 't', 'y']

/-- The exponent part `parseFloat` accepts after the mantissa: `e`/`E`, an
optional sign, then digits; if no digit follows, the exponent is not consumed
and contributes 0. -/
def parseExpList (cs : List Char) : ℤ :=
  match cs with
  | [] => 0
  | c :: t =>
    if c = 'e' ∨ c = 'E' then
      let sp := splitSign t
      let eds := sp.2.takeWhile isDigitChar
      if eds.isEmpty then 0
      else if sp.1 then -(natOfDigits eds : ℤ) else (natOfDigits eds : ℤ)
    else 0

/-- The exact rational denoted by a parsed decimal numeral: sign, integer
digits value `ip`, fraction digits value `fp` over `fLen` digits, and decimal
exponent `e`.  Built with `Rat.divInt` over integers (one of `e.toNat` and
`(-e).toNat` is always zero, so this scales the numerator for a positive
exponent and the denominator for a negative one). -/
def ratOfParts (neg : Bool) (ip fp fLen : ℕ) (e : ℤ) : ℚ :=
  let n : ℤ := ((ip * 10 ^ fLen + fp) * 10 ^ e.toNat : ℕ)
  Rat.divInt (if neg then -n else n) (((10 ^ fLen * 10 ^ (-e).toNat : ℕ)) : ℤ)

/-- `parseFloat` on a character list: skip leading whitespace, optional sign,
then the longest prefix that is `Infinity` or a decimal numeral
(`digits [. digits] [exponent]`), NaN if there is none.  Trailing characters
are ignored. -/
def parseFloatList (cs0 : List Char) : JsFloat :=
  let cs1 := cs0.dropWhile isJsWs
  let sp := splitSign cs1
  if isPrefixList infinityChars sp.2 then
    if sp.1 then JsFloat.neginf else JsFloat.inf
  else
    let intDs := sp.2.takeWhile isDigitChar
    let rest1 := sp.2.dropWhile isDigitChar
    let fracDs := if rest1.head? = some '.' then (rest1.drop 1).takeWhile isDigitChar else []
    let rest2 := if rest1.head? = some '.' then (rest1.drop 1).dropWhile isDigitChar else rest1
    if intDs.isEmpty && fracDs.isEmpty then JsFloat.nan
    else
      JsFloat.num
        (ratOfParts sp.1 (natOfDigits intDs) (natOfDigits fracDs) fracDs.length
          (parseExpList rest2))

/-- `parseFloat(s)`. -/
def jsParseFloat (s : String) : JsFloat := parseFloatList s.data

/-- `Number(s)` on a trimmed, non-hex/oct/bin character list: the whole list
must be a signed decimal numeral or `Infinity`, otherwise NaN. -/
def decodeDecimalWhole (cs : List Char) : JsFloat :=
  let sp := splitSign cs
  if sp.2 = infinityChars then
    if sp.1 then JsFloat.neginf else JsFloat.inf
  else
    let intDs := sp.2.takeWhile isDigitChar
    let rest1 := sp.2.dropWhile isDigitChar
    let fracDs := if rest1.head? = some '.' then (rest1.drop 1).takeWhile isDigitChar else []
    let rest2 := if rest1.head? = some '.' then (rest1.drop 1).dropWhile isDigitChar else rest1
    if intDs.isEmpty && fracDs.isEmpty then JsFloat.nan
    else
      match rest2 with
      | [] =>
        JsFloat.num (ratOfParts sp.1 (natOfDigits intDs) (natOfDigits fracDs) fracDs.length 0)
      | c :: t =>
        if c = 'e' ∨ c = 'E' then
          let sp2 := splitSign t
          let eds := sp2.2.takeWhile isDigitChar
          if eds.isEmpty ∨ ¬ (sp2.2.dropWhile isDigitChar = []) then JsFloat.nan
          else
            JsFloat.num
              (ratOfParts sp.1 (natOfDigits intDs) (natOfDigits fracDs) fracDs.length
                (if sp2.1 then -(natOfDigits eds : ℤ) else (natOfDigits eds : ℤ)))
        else JsFloat.nan

/-- `Number(s)` for a string argument: trim, empty means 0, `0x`/`0o`/`0b`
literals, otherwise the whole string must be a signed decimal numeral or
`Infinity`. -/
def jsToNumber (s : String) : JsFloat :=
  let cs := trimList s.data
  if cs = [] then JsFloat.num 0
  else if isPrefixList ['0', 'x'] cs || isPrefixList ['0', 'X'] cs then
    (let ds := cs.drop 2
     if ds.isEmpty || !(ds.all isHexDigitChar) then JsFloat.nan
     else JsFloat.num (natOfRadix 16 ds))
  else if isPrefixList ['0', 'o'] cs || isPrefixList ['0', 'O'] cs then
    (let ds := cs.drop 2
     if ds.isEmpty || !(ds.all isOctDigitChar) then JsFloat.nan
     else JsFloat.num (natOfRadix 8 ds))
  else if isPrefixList ['0', 'b'] cs || isPrefixList ['0', 'B'] cs then
    (let ds := cs.drop 2
     if ds.isEmpty || !(ds.all isBinDigitChar) then JsFloat.nan
     else JsFloat.num (natOfRadix 2 ds))
  else decodeDecimalWhole cs

/-- `Number(x)` where `x` is a possibly-undefined string field:
`Number(undefined)` is NaN. -/
def jsNumberOfOpt : Option String → JsFloat
  | none => JsFloat.nan
  | some q => jsToNumber q

/-- `v || 0`: keep `v` when truthy, else 0. -/
def jsOrZero (v : JsFloat) : JsFloat := if v.truthy then v else JsFloat.num 0

/-! ## The data model (`Attribute`, `Product`) -/

/-- One event/eVar key-value pair, `{ [key]: value }` in the source; the
value is absent when destructuring past the end of the `split('=')` result. -/
structure Attribute where
  key : String
  value : Option String
deriving DecidableEq, Repr

/-- The `Product` interface of the source (events/evars are attribute lists;
`quantity` and `price` are JS numbers). -/
structure Product where
  category : String
  item : String
  quantity : JsFloat
  price : JsFloat
  events : List Attribute
  evars : List Attribute
  isValid : Bool
deriving DecidableEq, Repr

/-! ## The validator itself -/

/-- Body of the `map` in `processEventAttributes`:
`const [key, value] = event.split('='); return { [key]: value }`. -/
def attrOfEntry (event : String) : Attribute :=
  let parts := jsSplit '=' event
  { key := parts.headD "", value := (parts.drop 1).head? }

/-- `processEventAttributes`: returns `undefined` (here `none`) unless the
input contains a `|`; otherwise splits on `|` and destructures each piece
through `split('=')`. -/
def processEventAttributes (eventAttribute : String) : Option (List Attribute) :=
  if !(jsIncludes '|' eventAttribute) then none
  else some ((jsSplit '|' eventAttribute).map attrOfEntry)

/-- `normalizeAttributes`: `raw ? processEventAttributes(raw) : []` then
`?? []`; the argument is optional because the call sites pass possibly
missing fields. -/
def normalizeAttributes (raw : Option String) : List Attribute :=
  match raw with
  | none => []
  | some r => if r = "" then [] else (processEventAttributes r).getD []

/-- The string actually handed to `parseFloat` for the price:
`price?.replace(',', '.') || '0'`. -/
def priceStringOf : Option String → String
  | none => "0"
  | some p => if jsReplaceFirst ',' '.' p = "" then "0" else jsReplaceFirst ',' '.' p

/-- `Boolean(item && item.trim())`. -/
def hasValidItemOf : Option String → Bool
  | none => false
  | some i => decide (i ≠ "") && decide (jsTrim i ≠ "")

/-- `parseProduct`: split one comma-delimited segment on `;`, destructure the
first six fields, and assemble the `Product` with its validity flag. -/
def parseProduct (product : String) : Product :=
  let parts := jsSplit ';' product
  let parsedPrice := jsParseFloat (priceStringOf (parts.get? 3))
  { category := (parts.get? 0).getD ""
    item := (parts.get? 1).getD ""
    quantity := jsOrZero (jsNumberOfOpt (parts.get? 2))
    price := parsedPrice
    events := normalizeAttributes (parts.get? 4)
    evars := normalizeAttributes (parts.get? 5)
    isValid := decide (4 ≤ parts.length) && hasValidItemOf (parts.get? 1) &&
      (!parsedPrice.isNaN && parsedPrice.geZero) }

/-- The regex `/^\d+[.,]\d*$/`: digits, one `.` or `,`, optional digits. -/
def cascadeRegexA (s : String) : Bool :=
  let ds := s.data.takeWhile isDigitChar
  match s.data.dropWhile isDigitChar with
  | [] => false
  | c :: rest => !ds.isEmpty && (decide (c = '.') || decide (c = ',')) && rest.all isDigitChar

/-- The regex `/^\d+$/`: one or more digits and nothing else. -/
def cascadeRegexB (s : String) : Bool := !s.data.isEmpty && s.data.all isDigitChar

/-- The per-product test of the cascading-error detection loop:
`product.category && regex.test(product.category.trim())` for either regex. -/
def cascadeCondition (p : Product) : Bool :=
  (decide (p.category ≠ "") && cascadeRegexA (jsTrim p.category)) ||
  (decide (p.category ≠ "") && cascadeRegexB (jsTrim p.category))

/-- Body of the propagation pass:
`if (product.isValid) { product.isValid = false; }`. -/
def demoteProduct (p : Product) : Product :=
  if p.isValid then { p with isValid := false } else p

/-- `validateProductString`: empty/whitespace input gives `[]`; otherwise
split on `,`, parse each segment, and if any parsed category triggers the
cascading-error heuristic demote every product. -/
def validateProductString (s : String) : List Product :=
  if jsTrim s = "" then []
  else
    let products := (jsSplit ',' s).map parseProduct
    let hasCascadingError := products.any cascadeCondition
    if hasCascadingError then products.map demoteProduct else products

/-! ## Spec-side definitions (for the refinement-style claims) -/

/-- Wording of claim C4 for the price condition: the price field, with its
first `,` replaced by `.`, parses to a non-negative number, defaulting to 0
when the field is absent (or empty, the code's `||` notion of absent). -/
def claimPriceOk : Option String → Bool
  | none => true
  | some p =>
    if p = "" then true
    else
      !(jsParseFloat (jsReplaceFirst ',' '.' p)).isNaN &&
        (jsParseFloat (jsReplaceFirst ',' '.' p)).geZero

/-- Wording of claim C4 for per-segment validity: at least 4 `;`-fields, the
name field non-empty after trimming, and the price condition above. -/
def claimSegmentValid (seg : String) : Bool :=
  decide (4 ≤ (jsSplit ';' seg).length) &&
    decide (jsTrim (((jsSplit ';' seg).get? 1).getD "") ≠ "") &&
    claimPriceOk ((jsSplit ';' seg).get? 3)

/-- Wording of claim C7 (as amended) for one `|`-piece: the key is the text
before the first `=`, the value is the text between the first and the second
`=` (absent when there is no `=`). -/
def specAttrOfPiece (e : String) : Attribute :=
  { key := String.mk (e.data.takeWhile fun c => !(decide (c = '='))),
    value :=
      match e.data.dropWhile (fun c => !(decide (c = '='))) with
      | [] => none
      | _ :: tail => some (String.mk (tail.takeWhile fun c => !(decide (c = '=')))) }

/-! ## Helper lemmas -/

theorem jsTrim_empty : jsTrim "" = "" := rfl

theorem demoteProduct_isValid (p : Product) : (demoteProduct p).isValid = false := by
  unfold demoteProduct
  cases h : p.isValid <;> simp [h]

theorem cascadeRegexA_empty : cascadeRegexA "" = false := rfl

theorem cascadeRegexB_empty : cascadeRegexB "" = false := rfl

theorem string_mk_data (s : String) : String.mk s.data = s := rfl

theorem replaceFirstList_cons (a b c : Char) (t : List Char) :
    replaceFirstList a b (c :: t) =
      if c = a then b :: t else c :: replaceFirstList a b t := rfl

theorem replaceFirstList_cons_ne {a b c : Char} {t : List Char} (h : c ≠ a) :
    replaceFirstList a b (c :: t) = c :: replaceFirstList a b t := by
  rw [replaceFirstList_cons, if_neg h]

theorem replaceFirstList_ne_nil {a b : Char} {l : List Char} (h : l ≠ []) :
    replaceFirstList a b l ≠ [] := by
  cases l with
  | nil => exact absurd rfl h
  | cons c t =>
    unfold replaceFirstList
    split <;> simp

theorem replaceFirstList_append_none {a b : Char} {l : List Char} (r : List Char)
    (h : ∀ c ∈ l, c ≠ a) : replaceFirstList a b (l ++ r) = l ++ replaceFirstList a b r := by
  induction l with
  | nil => rfl
  | cons c t ih =>
    rw [List.cons_append, replaceFirstList_cons_ne (h c (List.mem_cons_self c t)),
      ih (fun x hx => h x (List.mem_cons_of_mem c hx))]
    rfl

theorem takeWhile_dropWhile_append {p : Char → Bool} {l : List Char} (r : List Char)
    (hl : ∀ c ∈ l, p c = true) (hr : ∀ c, r.head? = some c → p c = false) :
    (l ++ r).takeWhile p = l ∧ (l ++ r).dropWhile p = r := by
  induction l with
  | nil =>
    cases r with
    | nil => exact ⟨rfl, rfl⟩
    | cons c t =>
      have hc := hr c rfl
      simp [List.takeWhile_cons, List.dropWhile_cons, hc]
  | cons c t ih =>
    have hc := hl c (List.mem_cons_self c t)
    have iht := ih (fun x hx => hl x (List.mem_cons_of_mem c hx))
    simp [List.takeWhile_cons, List.dropWhile_cons, hc, iht.1, iht.2]

theorem dropWhile_nil_all {p : Char → Bool} {l : List Char} (h : l.dropWhile p = []) :
    ∀ c ∈ l, p c = true := by
  induction l with
  | nil => intro c hc; exact absurd hc (List.not_mem_nil c)
  | cons c t ih =>
    rw [List.dropWhile_cons] at h
    by_cases hc : p c = true
    · rw [if_pos hc] at h
      intro x hx
      rcases List.mem_cons.mp hx with rfl | hx
      · exact hc
      · exact ih h x hx
    · rw [if_neg hc] at h
      exact absurd h (by simp)

theorem trimList_nil_all {cs : List Char} (h : trimList cs = []) :
    ∀ c ∈ cs, isJsWs c = true := by
  unfold trimList at h
  rw [List.reverse_eq_nil_iff] at h
  have h3 : ∀ c ∈ cs.dropWhile isJsWs, isJsWs c = true := fun c hc =>
    dropWhile_nil_all h c (List.mem_reverse.mpr hc)
  intro c hc
  rw [← List.takeWhile_append_dropWhile (p := isJsWs) (l := cs)] at hc
  rcases List.mem_append.mp hc with h4 | h4
  · exact List.mem_takeWhile_imp h4
  · exact h3 c h4

theorem splitCharList_no_sep {sep : Char} : ∀ {cs : List Char},
    (∀ c ∈ cs, c ≠ sep) → splitCharList sep cs = [cs] := by
  intro cs
  induction cs with
  | nil => intro _; rfl
  | cons c t ih =>
    intro h
    unfold splitCharList
    rw [ih (fun x hx => h x (List.mem_cons_of_mem c hx))]
    rw [if_neg (h c (List.mem_cons_self c t))]

theorem splitCharList_cons (sep c : Char) (t : List Char) :
    splitCharList sep (c :: t) =
      if c = sep then [] :: splitCharList sep t
      else
        match splitCharList sep t with
        | [] => [[c]]
        | h :: t2 => (c :: h) :: t2 := rfl

theorem splitCharList_structure (sep : Char) (cs : List Char) :
    splitCharList sep cs =
      cs.takeWhile (fun c => !(decide (c = sep))) ::
        (match cs.dropWhile (fun c => !(decide (c = sep))) with
         | [] => []
         | _ :: tail => splitCharList sep tail) := by
  induction cs with
  | nil => rfl
  | cons c t ih =>
    by_cases hc : c = sep
    · subst hc
      simp [splitCharList_cons, List.takeWhile_cons, List.dropWhile_cons]
    · rw [List.takeWhile_cons, List.dropWhile_cons]
      have hb : (!(decide (c = sep))) = true := by simp [hc]
      rw [if_pos hb, if_pos hb, splitCharList_cons, if_neg hc, ih]

/-! ## Claim C1 -/

/-- Claim C1 as written is false: for a non-empty attribute field with no
`|`, `processEventAttributes` bails out with `undefined` before any `=`
splitting, so `normalizeAttributes "eVar1=Value1"` is `[]`, not the claimed
one-element list `[⟨eVar1, Value1⟩]`. -/
theorem claim_C1_counterexample :
    normalizeAttributes (some "eVar1=Value1") = [] ∧
      normalizeAttributes (some "eVar1=Value1") ≠
        [{ key := "eVar1", value := some "Value1" }] := by
  decide

/-- Claim C1 amended: for every non-empty raw attribute field string that
contains no `|`, the attribute-list normalizer returns the empty sequence
(the split-on-`=` single entry of the claim never materialises). -/
theorem claim_C1_theorem (r : String) (hne : r ≠ "") (hp : jsIncludes '|' r = false) :
    normalizeAttributes (some r) = [] := by
  unfold normalizeAttributes processEventAttributes
  dsimp only
  rw [if_neg hne, hp]
  rfl

/-- Witness for C1-amended at the claim's own example input. -/
theorem claim_C1_witness : normalizeAttributes (some "eVar1=Value1") = [] :=
  claim_C1_theorem "eVar1=Value1" (by decide) (by decide)

/-! ## Claim C2 -/

/-- Claim C2 as written (over every input string) is false at the empty
string: the validator returns no products, while `"".split(",")` has one
element. -/
theorem claim_C2_counterexample :
    validateProductString "" = [] ∧ jsSplit ',' "" = [""] ∧
      (validateProductString "").length ≠ (jsSplit ',' "").length := by
  decide

/-- Claim C2 amended: for every input string that does not trim to empty
(the validator's guard), the number of returned products equals the length
of the input split on `,`. -/
theorem claim_C2_theorem (s : String) (h : jsTrim s ≠ "") :
    (validateProductString s).length = (jsSplit ',' s).length := by
  unfold validateProductString
  rw [if_neg h]
  dsimp only
  split <;> simp

/-- Witness for C2-amended on a two-segment input. -/
theorem claim_C2_witness :
    (validateProductString "a,b").length = (jsSplit ',' "a,b").length :=
  claim_C2_theorem "a,b" (by decide)

/-! ## Claim C3 -/

/-- Claim C3: if some parsed product's trimmed category matches either
cascading-error regex, every returned product has `isValid = false` and the
whole-string conjunction of validity flags is false. -/
theorem claim_C3_theorem (s : String)
    (h : ∃ p ∈ validateProductString s,
      cascadeRegexA (jsTrim p.category) = true ∨ cascadeRegexB (jsTrim p.category) = true) :
    (∀ p ∈ validateProductString s, p.isValid = false) ∧
      (validateProductString s).all (fun p => p.isValid) = false := by
  by_cases ht : jsTrim s = ""
  · exfalso
    obtain ⟨p, hp, _⟩ := h
    rw [validateProductString, if_pos ht] at hp
    exact absurd hp (List.not_mem_nil p)
  · have hcasc : ((jsSplit ',' s).map parseProduct).any cascadeCondition = true := by
      by_contra hc
      have hc2 : ((jsSplit ',' s).map parseProduct).any cascadeCondition = false :=
        Bool.eq_false_iff.mpr hc
      obtain ⟨p, hp, hreg⟩ := h
      rw [validateProductString, if_neg ht] at hp
      dsimp only at hp
      rw [hc2] at hp
      simp only [Bool.false_eq_true, if_false] at hp
      have hcat : p.category ≠ "" := by
        intro he
        rw [he, jsTrim_empty] at hreg
        rcases hreg with h1 | h1
        · exact absurd h1 (by decide)
        · exact absurd h1 (by decide)
      have hcond : cascadeCondition p = true := by
        unfold cascadeCondition
        have hd : decide (p.category ≠ "") = true := decide_eq_true hcat
        rcases hreg with h1 | h1 <;> simp [hd, h1]
      have : ((jsSplit ',' s).map parseProduct).any cascadeCondition = true :=
        List.any_eq_true.mpr ⟨p, hp, hcond⟩
      rw [this] at hc2
      exact absurd hc2 (by decide)
    have hval : validateProductString s =
        ((jsSplit ',' s).map parseProduct).map demoteProduct := by
      rw [validateProductString, if_neg ht]
      dsimp only
      rw [hcasc]
      simp
    have hall : ∀ p ∈ validateProductString s, p.isValid = false := by
      rw [hval]
      intro p hp
      obtain ⟨q, _, rfl⟩ := List.mem_map.mp hp
      exact demoteProduct_isValid q
    refine ⟨hall, ?_⟩
    obtain ⟨p, hp, _⟩ := h
    cases hA : (validateProductString s).all (fun p => p.isValid) with
    | false => rfl
    | true =>
      have := List.all_eq_true.mp hA p hp
      rw [hall p hp] at this
      exact absurd this (by decide)

/-- Witness for C3: a single all-numeric-with-dot segment triggers the
heuristic and invalidates the whole string. -/
theorem claim_C3_witness :
    (∀ p ∈ validateProductString "5.5", p.isValid = false) ∧
      (validateProductString "5.5").all (fun p => p.isValid) = false :=
  claim_C3_theorem "5.5" (by decide)

/-! ## Claim C5 -/

/-- Claim C5: on `"Cat;Name;1;3,50"` the comma in the price fragments the
string into two segments; the second product's category is `"50"`, which is
purely numeric and triggers the cascading-error heuristic, so both products
end invalid; the first product's price is 3 (not 3.5), showing the
comma-to-dot substitution never repaired the collided price. -/
theorem claim_C5_theorem :
    validateProductString "Cat;Name;1;3,50" =
      [{ category := "Cat", item := "Name", quantity := JsFloat.num 1,
         price := JsFloat.num 3, events := [], evars := [], isValid := false },
       { category := "50", item := "", quantity := JsFloat.num 0,
         price := JsFloat.num 0, events := [], evars := [], isValid := false }] ∧
      cascadeRegexB (jsTrim "50") = true ∧
      (jsSplit ',' "Cat;Name;1;3,50").length = 2 := by
  decide

/-! ## Claim C6 -/

/-- Claim C6: the validator is a total function into product lists (so no
input can raise an error in the model); the empty string yields the empty
list, which is vacuously valid, and a delimiter-only string still yields one
structured product per comma-separated segment. -/
theorem claim_C6_theorem :
    (∀ s : String, ∃ l : List Product, validateProductString s = l) ∧
      validateProductString "" = [] ∧
      ((validateProductString "").all fun p => p.isValid) = true ∧
      (validateProductString ";|=;,;|=,;").length = 3 := by
  refine ⟨fun s => ⟨validateProductString s, rfl⟩, by decide, by decide, by decide⟩

/-! ## Claim C8 -/

/-- Claim C8: the demotion pass preserves every field except `isValid`,
always ends with `isValid = false` (so it only ever changes the flag from
true to false and never promotes an invalid product), and preserves the
length of the product sequence. -/
theorem claim_C8_theorem :
    (∀ p : Product,
      (demoteProduct p).category = p.category ∧ (demoteProduct p).item = p.item ∧
      (demoteProduct p).quantity = p.quantity ∧ (demoteProduct p).price = p.price ∧
      (demoteProduct p).events = p.events ∧ (demoteProduct p).evars = p.evars ∧
      (demoteProduct p).isValid = false) ∧
    (∀ ps : List Product, (ps.map demoteProduct).length = ps.length) := by
  constructor
  · intro p
    unfold demoteProduct
    cases h : p.isValid <;> simp [h]
  · intro ps
    simp

/-! ## Claim C9 -/

/-- Claim C9: a non-empty input consisting only of JS whitespace trims to
empty, so the validator returns no products, even though the comma split of
such an input has exactly one segment. -/
theorem claim_C9_theorem (s : String) (_hne : s ≠ "") (ht : jsTrim s = "") :
    validateProductString s = [] ∧ (jsSplit ',' s).length = 1 := by
  constructor
  · rw [validateProductString, if_pos ht]
  · have htl : trimList s.data = [] := congrArg String.data ht
    have hws : ∀ c ∈ s.data, isJsWs c = true := trimList_nil_all htl
    have hnc : ∀ c ∈ s.data, c ≠ ',' := by
      intro c hc heq
      have hw := hws c hc
      rw [heq] at hw
      exact absurd hw (by decide)
    unfold jsSplit
    rw [splitCharList_no_sep hnc]
    rfl

/-- Witness for C9 at a three-space input. -/
theorem claim_C9_witness :
    validateProductString "   " = [] ∧ (jsSplit ',' "   ").length = 1 :=
  claim_C9_theorem "   " (by decide) (by decide)

/-! ## Claim C7 -/

theorem attrOfEntry_eq_spec (e : String) : attrOfEntry e = specAttrOfPiece e := by
  unfold attrOfEntry specAttrOfPiece jsSplit
  rw [splitCharList_structure '=' e.data]
  cases hd : e.data.dropWhile (fun c => !(decide (c = '='))) with
  | nil => simp
  | cons c tail =>
    dsimp only
    rw [splitCharList_structure '=' tail]
    simp

/-- Claim C7 as written is false: inside a piped field, a piece with two
`=` signs loses everything after the second one, because `split('=')` cuts
at every `=` and the destructuring keeps only the first two parts; for the
piece `"k=a=b"` the value is `"a"`, not the claimed `"a=b"`. -/
theorem claim_C7_counterexample :
    processEventAttributes "k=a=b|x=1" =
      some [{ key := "k", value := some "a" }, { key := "x", value := some "1" }] ∧
      ({ key := "k", value := some "a" } : Attribute) ≠
        { key := "k", value := some "a=b" } := by
  decide

/-- Claim C7 amended: for every attribute field containing `|`, the
normalizer splits on `|` first; in each piece the key is the text before the
first `=` and the value is the text between the first and the second `=`
(absent when there is no `=`) — characters after a second `=` are dropped. -/
theorem claim_C7_theorem (r : String) (h : jsIncludes '|' r = true) :
    normalizeAttributes (some r) = (jsSplit '|' r).map specAttrOfPiece := by
  have hne : r ≠ "" := by
    intro he
    rw [he] at h
    exact absurd h (by decide)
  unfold normalizeAttributes processEventAttributes
  dsimp only
  rw [if_neg hne, h]
  simp [funext attrOfEntry_eq_spec]

/-- Witness for C7-amended on a piped two-entry field. -/
theorem claim_C7_witness :
    normalizeAttributes (some "a=1|b") = (jsSplit '|' "a=1|b").map specAttrOfPiece :=
  claim_C7_theorem "a=1|b" (by decide)

/-! ## Claim C4 -/

theorem hasValidItemOf_eq (it : Option String) :
    hasValidItemOf it = decide (jsTrim (it.getD "") ≠ "") := by
  cases it with
  | none => simp [hasValidItemOf, jsTrim_empty]
  | some i =>
    by_cases hi : i = ""
    · subst hi
      simp [hasValidItemOf, jsTrim_empty]
    · simp [hasValidItemOf, hi]

theorem priceOk_eq (pr : Option String) :
    (!(jsParseFloat (priceStringOf pr)).isNaN &&
      (jsParseFloat (priceStringOf pr)).geZero) = claimPriceOk pr := by
  cases pr with
  | none => decide
  | some p =>
    by_cases hp : p = ""
    · subst hp
      decide
    · have hr : jsReplaceFirst ',' '.' p ≠ "" := by
        intro he
        apply hp
        have hdata : replaceFirstList ',' '.' p.data = [] := congrArg String.data he
        have hpd : p.data = [] := by
          by_contra hpd
          exact absurd hdata (replaceFirstList_ne_nil hpd)
        have hmk : p = String.mk [] := by rw [← string_mk_data p, hpd]
        exact hmk
      unfold priceStringOf claimPriceOk
      dsimp only
      rw [if_neg hr, if_neg hp]

/-- Claim C4: per-segment validity is exactly (at least 4 `;`-fields) and
(name non-empty after trimming) and (price, with its first `,` turned into
`.`, parses to a non-negative number, defaulting to 0 when the field is
absent or empty); in particular the 3-field segment `"Cat;Name;1"` is
invalid. -/
theorem claim_C4_theorem :
    (∀ seg : String, (parseProduct seg).isValid = claimSegmentValid seg) ∧
      (parseProduct "Cat;Name;1").isValid = false := by
  refine ⟨?_, by decide⟩
  intro seg
  show (decide (4 ≤ (jsSplit ';' seg).length) &&
      hasValidItemOf ((jsSplit ';' seg).get? 1) &&
      (!(jsParseFloat (priceStringOf ((jsSplit ';' seg).get? 3))).isNaN &&
        (jsParseFloat (priceStringOf ((jsSplit ';' seg).get? 3))).geZero)) =
    claimSegmentValid seg
  rw [hasValidItemOf_eq, priceOk_eq]
  rfl

/-! ## Claim C10 -/

theorem digit_not_ws {c : Char} (h : isDigitChar c = true) : isJsWs c = false := by
  simp only [isDigitChar, decide_eq_true_eq] at h
  simp only [isJsWs, decide_eq_false_iff_not]
  omega

theorem digit_ne_chars {c : Char} (h : isDigitChar c = true) :
    c ≠ '-' ∧ c ≠ '+' ∧ c ≠ 'I' ∧ c ≠ '.' ∧ c ≠ ',' ∧ c ≠ 'e' ∧ c ≠ 'E' := by
  refine ⟨?_, ?_, ?_, ?_, ?_, ?_, ?_⟩ <;> intro he <;> subst he <;>
    exact absurd h (by decide)

theorem parseFloatList_cons_digit {d : Char} (t : List Char) (hd : isDigitChar d = true) :
    parseFloatList (d :: t) =
      (if ((d :: t).dropWhile isDigitChar).head? = some '.' then
        JsFloat.num (ratOfParts false (natOfDigits ((d :: t).takeWhile isDigitChar))
          (natOfDigits ((((d :: t).dropWhile isDigitChar).drop 1).takeWhile isDigitChar))
          ((((d :: t).dropWhile isDigitChar).drop 1).takeWhile isDigitChar).length
          (parseExpList ((((d :: t).dropWhile isDigitChar).drop 1).dropWhile isDigitChar)))
      else
        JsFloat.num (ratOfParts false (natOfDigits ((d :: t).takeWhile isDigitChar))
          (natOfDigits ([] : List Char)) (List.length ([] : List Char))
          (parseExpList ((d :: t).dropWhile isDigitChar)))) := by
  have hw : isJsWs d = false := digit_not_ws hd
  obtain ⟨hm, hp, hI, -, -, -, -⟩ := digit_ne_chars hd
  have hpre : isPrefixList infinityChars (d :: t) = false := by
    have hdec : decide (('I' : Char) = d) = false := decide_eq_false fun heq => hI heq.symm
    unfold infinityChars isPrefixList
    rw [hdec, Bool.false_and]
  have htake : (d :: t).takeWhile isDigitChar = d :: t.takeWhile isDigitChar := by
    simp [List.takeWhile_cons, hd]
  have hsp : splitSign (d :: t) = (false, d :: t) := by
    unfold splitSign
    dsimp only
    rw [if_neg hm, if_neg hp]
  unfold parseFloatList
  dsimp only
  rw [List.dropWhile_cons, hw]
  simp only [Bool.false_eq_true, if_false]
  rw [hsp]
  dsimp only
  rw [hpre]
  simp only [Bool.false_eq_true, if_false]
  rw [htake]
  simp only [List.isEmpty_cons, Bool.false_and, Bool.false_eq_true, if_false]
  rw [← htake]
  by_cases hdotq : ((d :: t).dropWhile isDigitChar).head? = some '.'
  · simp only [hdotq, if_true]
  · simp only [if_neg hdotq]

theorem parseExpList_stop {rest : List Char}
    (hstop : ∀ c, rest.head? = some c → c ≠ 'e' ∧ c ≠ 'E') :
    parseExpList rest = 0 := by
  cases rest with
  | nil => rfl
  | cons c t2 =>
    obtain ⟨he, hE⟩ := hstop c rfl
    unfold parseExpList
    dsimp only
    rw [if_neg (fun h1 => Or.elim h1 he hE)]

theorem parseFloatList_numeral (intDs fracDs rest : List Char) (hasDot : Bool)
    (hi : intDs ≠ []) (hia : ∀ c ∈ intDs, isDigitChar c = true)
    (hfa : ∀ c ∈ fracDs, isDigitChar c = true)
    (hnd : hasDot = false → fracDs = [])
    (hstop : ∀ c, rest.head? = some c →
      isDigitChar c = false ∧ c ≠ '.' ∧ c ≠ 'e' ∧ c ≠ 'E') :
    parseFloatList ((intDs ++ (if hasDot then '.' :: fracDs else [])) ++ rest) =
      JsFloat.num
        (ratOfParts false (natOfDigits intDs) (natOfDigits fracDs) fracDs.length 0) := by
  have hexp : parseExpList rest = 0 :=
    parseExpList_stop fun c hc => ⟨(hstop c hc).2.2.1, (hstop c hc).2.2.2⟩
  have hrstop : ∀ c, rest.head? = some c → isDigitChar c = false :=
    fun c hc => (hstop c hc).1
  cases intDs with
  | nil => exact absurd rfl hi
  | cons d dt =>
    have hd : isDigitChar d = true := hia d (List.mem_cons_self d dt)
    cases hasDot with
    | true =>
      have h1 := takeWhile_dropWhile_append (p := isDigitChar) (l := d :: dt)
        ('.' :: (fracDs ++ rest)) hia
        (fun c hc => by
          rw [← Option.some.inj hc]
          decide)
      have h2 := takeWhile_dropWhile_append (p := isDigitChar) (l := fracDs) rest hfa hrstop
      simp only [eq_self_iff_true, if_true, List.cons_append, List.append_assoc] at *
      rw [parseFloatList_cons_digit _ hd, h1.1, h1.2]
      simp only [List.head?_cons, if_true, List.drop_one, List.tail_cons, h2.1, h2.2, hexp]
    | false =>
      have hfz : fracDs = [] := hnd rfl
      subst hfz
      have h1 := takeWhile_dropWhile_append (p := isDigitChar) (l := d :: dt) rest hia hrstop
      simp only [Bool.false_eq_true, if_false, List.append_nil, List.cons_append] at *
      rw [parseFloatList_cons_digit _ hd, h1.1, h1.2]
      have hnod : ¬ (rest.head? = some '.') := by
        cases rest with
        | nil => simp
        | cons c t2 =>
          simp only [List.head?_cons]
          intro hc
          exact absurd (Option.some.inj hc) (hstop c rfl).2.1
      rw [if_neg hnod, hexp]

theorem ratOfParts_nonneg (ip fp fLen : ℕ) :
    (0 : ℚ) ≤ ratOfParts false ip fp fLen 0 := by
  unfold ratOfParts
  dsimp only
  simp only [Bool.false_eq_true, if_false]
  exact Rat.divInt_nonneg (Int.natCast_nonneg _) (Int.natCast_nonneg _)

theorem string_mk_ne_empty {l : List Char} (h : l ≠ []) : String.mk l ≠ "" := by
  intro he
  exact absurd (congrArg String.data he) h

/-- Claim C10: a segment with at least 4 fields, a name that trims
non-empty, and a price field that is a decimal numeral followed by trailing
garbage whose first character can extend neither the numeral nor the
comma-to-dot substitution, parses to the exact value of the numeral prefix
and is valid — the trailing garbage is silently ignored. -/
theorem claim_C10_theorem (seg : String) (intDs fracDs garbage : List Char)
    (hasDot : Bool)
    (hi : intDs ≠ []) (hia : ∀ c ∈ intDs, isDigitChar c = true)
    (hfa : ∀ c ∈ fracDs, isDigitChar c = true)
    (hnd : hasDot = false → fracDs = [])
    (hgne : garbage ≠ [])
    (hg : ∀ c, garbage.head? = some c →
      isDigitChar c = false ∧ c ≠ '.' ∧ c ≠ ',' ∧ c ≠ 'e' ∧ c ≠ 'E')
    (hlen : 4 ≤ (jsSplit ';' seg).length)
    (hitem : jsTrim (((jsSplit ';' seg).get? 1).getD "") ≠ "")
    (hprice : (jsSplit ';' seg).get? 3 =
      some (String.mk ((intDs ++ (if hasDot then '.' :: fracDs else [])) ++ garbage))) :
    (parseProduct seg).price =
        jsParseFloat (String.mk (intDs ++ (if hasDot then '.' :: fracDs else []))) ∧
      (parseProduct seg).price =
        JsFloat.num
          (ratOfParts false (natOfDigits intDs) (natOfDigits fracDs) fracDs.length 0) ∧
      (0 : ℚ) ≤ ratOfParts false (natOfDigits intDs) (natOfDigits fracDs) fracDs.length 0 ∧
      (parseProduct seg).isValid = true := by
  set numCs := intDs ++ (if hasDot then '.' :: fracDs else []) with hnumCs
  cases garbage with
  | nil => exact absurd rfl hgne
  | cons g gt =>
    obtain ⟨hgd, hgdot, hgcomma, hge, hgE⟩ := hg g rfl
    have hnocomma : ∀ c ∈ numCs, c ≠ ',' := by
      intro c hc
      rcases List.mem_append.mp hc with h1 | h1
      · exact (digit_ne_chars (hia c h1)).2.2.2.2.1
      · revert h1
        cases hasDot with
        | true =>
          intro h1
          rcases List.mem_cons.mp h1 with rfl | h2
          · decide
          · exact (digit_ne_chars (hfa c h2)).2.2.2.2.1
        | false =>
          intro h1
          exact absurd h1 (List.not_mem_nil c)
    have hrep : replaceFirstList ',' '.' (numCs ++ g :: gt) =
        numCs ++ g :: replaceFirstList ',' '.' gt := by
      rw [replaceFirstList_append_none _ hnocomma, replaceFirstList_cons_ne hgcomma]
    have hargne : numCs ++ g :: gt ≠ [] := by simp
    have hpne : jsReplaceFirst ',' '.' (String.mk (numCs ++ g :: gt)) ≠ "" :=
      string_mk_ne_empty (replaceFirstList_ne_nil hargne)
    have hparse1 : parseFloatList (numCs ++ g :: replaceFirstList ',' '.' gt) =
        JsFloat.num
          (ratOfParts false (natOfDigits intDs) (natOfDigits fracDs) fracDs.length 0) :=
      parseFloatList_numeral intDs fracDs (g :: replaceFirstList ',' '.' gt) hasDot
        hi hia hfa hnd
        (fun c hc => by
          rw [← Option.some.inj hc]
          exact ⟨hgd, hgdot, hge, hgE⟩)
    have hparse2 : parseFloatList numCs =
        JsFloat.num
          (ratOfParts false (natOfDigits intDs) (natOfDigits fracDs) fracDs.length 0) := by
      have := parseFloatList_numeral intDs fracDs [] hasDot hi hia hfa hnd
        (fun c hc => by exact absurd hc (by simp))
      rw [List.append_nil] at this
      exact this
    have hpstr : priceStringOf (some (String.mk (numCs ++ g :: gt))) =
        String.mk (numCs ++ g :: replaceFirstList ',' '.' gt) := by
      unfold priceStringOf
      dsimp only
      rw [if_neg hpne]
      unfold jsReplaceFirst
      rw [show (String.mk (numCs ++ g :: gt)).data = numCs ++ g :: gt from rfl, hrep]
    have hpp : (parseProduct seg).price =
        jsParseFloat (priceStringOf ((jsSplit ';' seg).get? 3)) := rfl
    rw [hprice, hpstr] at hpp
    have hfinal : (parseProduct seg).price =
        JsFloat.num
          (ratOfParts false (natOfDigits intDs) (natOfDigits fracDs) fracDs.length 0) := by
      rw [hpp]
      exact hparse1
    have hnn := ratOfParts_nonneg (natOfDigits intDs) (natOfDigits fracDs) fracDs.length
    refine ⟨?_, hfinal, hnn, ?_⟩
    · rw [hfinal]
      exact hparse2.symm
    · have hv : (parseProduct seg).isValid =
          (decide (4 ≤ (jsSplit ';' seg).length) &&
            hasValidItemOf ((jsSplit ';' seg).get? 1) &&
            (!(parseProduct seg).price.isNaN && (parseProduct seg).price.geZero)) := rfl
      rw [hv, hfinal, hasValidItemOf_eq, decide_eq_true hlen, decide_eq_true hitem]
      unfold JsFloat.isNaN JsFloat.geZero
      dsimp only
      rw [decide_eq_true hnn]
      rfl

/-- Witness for C10 at the price field `"5.99abc"`: the parsed price is
exactly 5.99 and the product is valid. -/
theorem claim_C10_witness :
    (parseProduct "Cat;Name;1;5.99abc").price = jsParseFloat "5.99" ∧
      (parseProduct "Cat;Name;1;5.99abc").price = JsFloat.num (Rat.divInt 599 100) ∧
      (0 : ℚ) ≤ Rat.divInt 599 100 ∧
      (parseProduct "Cat;Name;1;5.99abc").isValid = true := by
  have h := claim_C10_theorem "Cat;Name;1;5.99abc" ['5'] ['9', '9'] ['a', 'b', 'c'] true
    (by decide) (by decide) (by decide) (by decide) (by decide)
    (by
      intro c hc
      rw [← Option.some.inj hc]
      decide)
    (by decide) (by decide) (by decide)
  exact h

end AAValidator
